import Mathlib

/-!
# Verification of the `tsne_viz` tutorial pipeline

A shallow embedding of `cookbook/tutorials/tsne_viz/indexer.py` and
`cookbook/tutorials/tsne_viz/viz_scatter.py`.

External collaborators (the filesystem, `glob.glob`, the
`RecursiveCharacterTextSplitter`, the remote Gemini embedding API,
`os.path.relpath`, success of the final file write, and the presence of the
`GEMINI_API_KEY` variable) are modelled as parameters collected in an `Env`
record.  Wall-clock time (`processing_time`) is modelled as the constant `0`,
and the floating-point numbers carried by embeddings are modelled as `Rat`
(the pipeline only moves them around and compares them; it performs no
arithmetic on them, and Python's `json.dump`/`json.load`/`float` round-trip
floats exactly).
-/

namespace TsneViz

/-! ## Configuration constants (indexer.py, lines 30-35) -/

def CHUNK_SIZE : Nat := 600
def CHUNK_OVERLAP : Nat := 200
def EMBEDDING_SIZE : Nat := 768
def BATCH_SIZE : Nat := 20
def GEMINI_BATCH_LIMIT : Nat := 100
def OUTPUT_JSON_FILE : String := "embeddings.json"

/-- An embedding vector; Python carries the floats returned by the API. -/
abbrev Vec := List Rat

/-! ## Data model -/

/-- A chunk as produced by `split_text` (indexer.py 90-96): the dict before
the `"embedding"` key is added. -/
structure Chunk where
  id : String
  file_id : String
  content : String
  start_pos : Nat
  end_pos : Nat
deriving DecidableEq, Repr

/-- A chunk after `embed_content` has run over it.  `embedding = none` models
a dict that still has no `"embedding"` key; `some v` models
`chunk["embedding"] = v`. -/
structure EmbChunk where
  chunk : Chunk
  embedding : Option Vec
deriving DecidableEq, Repr

/-- The `stats` dict of `index_markdown_files` (indexer.py 184-190).
`processing_time` is wall-clock time, modelled as `0`. -/
structure Stats where
  files_processed : Nat
  files_failed : Nat
  chunks_created : Nat
  chunks_indexed : Nat
  processing_time : Nat
deriving DecidableEq, Repr

/-- The dict returned by `index_markdown_files`: `stats = none` models a
result dict with no `"stats"` key. -/
structure IndexResult where
  status : String
  message : String
  stats : Option Stats
deriving DecidableEq, Repr

/-- State of the output JSON file after a run. `writeFailed` models
`open(..., 'w')`/`json.dump` raising (the claims never inspect the file's
bytes in that case). -/
inductive OutFile where
  | untouched : OutFile
  | writeFailed : OutFile
  | written : List EmbChunk → OutFile
deriving DecidableEq, Repr

/-- External collaborators of the two scripts. -/
structure Env where
  /-- `glob.glob(pattern, recursive=True)`: pattern ↦ matched paths. -/
  glob : String → List String
  /-- File contents; `none` models a file `open`/`read` raises on. -/
  fs : String → Option String
  /-- `os.path.relpath`. -/
  relpath : String → String
  /-- `RecursiveCharacterTextSplitter(...).split_text`. -/
  splitter : String → List String
  /-- `client.models.embed_content` on a list of texts: raises (`error`) or
  returns the list of embedding vectors. -/
  api : List String → Except Unit (List Vec)
  /-- Whether writing `OUTPUT_JSON_FILE` succeeds. -/
  writeOk : Bool
  /-- Whether `GEMINI_API_KEY` is set. -/
  apiKey : Bool

/-! ## `read_text_file` (indexer.py 41-56) -/

/-- Returns the file's contents, or `""` when reading raises. -/
def read_text_file (fs : String → Option String) (file_path : String) : String :=
  match fs file_path with
  | some content => content
  | none => ""

/-! ## `split_text` (indexer.py 58-98) -/

/-- `str.replace("\\", "/")`: the pattern is a single character, so the call
replaces every backslash character by a slash. -/
def slashify (s : String) : String :=
  ⟨s.data.map (fun c => if c = '\\' then '/' else c)⟩

/-- `os.path.relpath(file_path).replace("\\", "/")` (indexer.py 79). -/
def posixFileId (relpath : String → String) (file_path : String) : String :=
  slashify (relpath file_path)

/-- The f-string `f"{file_id}_{start_pos}-{end_pos}"` (indexer.py 88). -/
def chunkId (file_id : String) (start_pos end_pos : Nat) : String :=
  file_id ++ "_" ++ Nat.repr start_pos ++ "-" ++ Nat.repr end_pos

/-- The chunk dict built for the `i`-th split (indexer.py 83-96). -/
def mkChunk (file_id : String) (i : Nat) (chunk_text : String) : Chunk :=
  let start_pos := if i > 0 then i * (CHUNK_SIZE - CHUNK_OVERLAP) else 0
  let end_pos := start_pos + chunk_text.length
  { id := chunkId file_id start_pos end_pos
    file_id := file_id
    content := chunk_text
    start_pos := start_pos
    end_pos := end_pos }

/-- `split_text` (indexer.py 58-98): split via the external splitter, then
build one dict per chunk. -/
def split_text (relpath : String → String) (splitter : String → List String)
    (text : String) (file_path : String) : List Chunk :=
  let file_id := posixFileId relpath file_path
  (splitter text).enum.map (fun p => mkChunk file_id p.1 p.2)

/-! ## Batching

`range(0, len(l), n)` slicing (indexer.py 113-114 and 193-194) groups a list
into consecutive slices of at most `n` elements. -/

/-- `[l[i : i + n] for i in range(0, len(l), n)]`: the slice `l[i:i+n]` is
`(l.drop i).take n`, and `range(0, len, n)` visits `⌈len / n⌉` indices
`0, n, 2n, …`. -/
def chunksOf (n : Nat) (l : List α) : List (List α) :=
  (List.range ((l.length + n - 1) / n)).map (fun k => (l.drop (k * n)).take n)

/-! ## `embed_content` (indexer.py 100-148) -/

/-- The assignment loop `for j, embedding in enumerate(response.embeddings):
batch[j]["embedding"] = embedding.values` (indexer.py 132-133), in the case
where it does not overrun `batch`: chunk `j` receives vector `j`; chunks past
the end of the response keep no `"embedding"` key. -/
def assignEmb : List Chunk → List Vec → List EmbChunk
  | [], _ => []
  | c :: cs, [] => ⟨c, none⟩ :: assignEmb cs []
  | c :: cs, v :: vs => ⟨c, some v⟩ :: assignEmb cs vs

/-- One iteration of the sub-batch loop body (indexer.py 120-142): on an API
error — including an `IndexError` from a response longer than the batch — the
`except` arm gives every chunk of the sub-batch an empty embedding. -/
def processBatch : Except Unit (List Vec) → List Chunk → List EmbChunk
  | .error _, batch => batch.map (fun c => ⟨c, some []⟩)
  | .ok vecs, batch =>
    if vecs.length ≤ batch.length then assignEmb batch vecs
    else batch.map (fun c => ⟨c, some []⟩)

/-- `embed_content` (indexer.py 100-148): process the chunk list in
sub-batches of `GEMINI_BATCH_LIMIT`, accumulating into
`all_chunks_with_embeddings`.  The `time.sleep(0.5)` has no observable
effect on the data. -/
def embed_content (api : List String → Except Unit (List Vec))
    (chunks : List Chunk) : List EmbChunk :=
  (chunksOf GEMINI_BATCH_LIMIT chunks).foldl
    (fun acc batch => acc ++ processBatch (api (batch.map (fun c => c.content))) batch)
    []

/-! ## `index_markdown_files` (indexer.py 150-267) -/

/-- Truthiness of `chunk.get("embedding")` (indexer.py 228): the key exists
and holds a non-empty list. -/
def hasEmbedding (c : EmbChunk) : Bool :=
  match c.embedding with
  | some (_ :: _) => true
  | _ => false

/-- `file_type.startswith('.')`: the prefix is a single character, so this is
a check on the first character. -/
def startsWithDot (s : String) : Bool :=
  match s.data with
  | [] => false
  | c :: _ => c = '.'

/-- Extension normalization (indexer.py 169-170). -/
def normalizeType (file_type : String) : String :=
  if startsWithDot file_type then file_type else "." ++ file_type

/-- The glob pattern `f"{directory}/**/*{file_type}"` (indexer.py 171). -/
def globPattern (directory file_type : String) : String :=
  directory ++ "/**/*" ++ file_type

/-- `all_found_files` (indexer.py 163-172). -/
def foundFiles (env : Env) (directory : String) (file_types : List String) : List String :=
  file_types.flatMap (fun t => env.glob (globPattern directory (normalizeType t)))

def initStats : Stats :=
  { files_processed := 0, files_failed := 0, chunks_created := 0
    chunks_indexed := 0, processing_time := 0 }

/-- The per-file loop body (indexer.py 199-221); the accumulator is
`(stats, all_chunks)`.  `read_text_file` never raises and the splitter is a
total function, so the `except` arm at line 219 is unreachable here. -/
def processFile (env : Env) (acc : Stats × List Chunk) (file_path : String) :
    Stats × List Chunk :=
  let content := read_text_file env.fs file_path
  if content = "" then
    ({ acc.1 with files_failed := acc.1.files_failed + 1 }, acc.2)
  else
    let chunks := split_text env.relpath env.splitter content file_path
    ({ acc.1 with
        files_processed := acc.1.files_processed + 1
        chunks_created := acc.1.chunks_created + chunks.length },
      acc.2 ++ chunks)

/-- One outer batch (indexer.py 193-236): chunk every file of the batch, then
embed, filter chunks with truthy embeddings, and append the survivors to
`all_processed_chunks`. -/
def processOuterBatch (env : Env) (acc : Stats × List EmbChunk)
    (batch : List String) : Stats × List EmbChunk :=
  let fileAcc := batch.foldl (processFile env) (acc.1, [])
  if fileAcc.2 = [] then (fileAcc.1, acc.2)
  else
    let embedded := embed_content env.api fileAcc.2
    let valid := embedded.filter hasEmbedding
    (fileAcc.1, acc.2 ++ valid)

/-- The whole outer-batch loop: final `(stats, all_processed_chunks)` before
`chunks_indexed`/`processing_time` are filled in. -/
def runBatches (env : Env) (found : List String) : Stats × List EmbChunk :=
  (chunksOf BATCH_SIZE found).foldl (processOuterBatch env) (initStats, [])

/-- `index_markdown_files` (indexer.py 150-267), returning the result dict
together with the effect on `OUTPUT_JSON_FILE`. -/
def index_markdown_files (env : Env) (directory : String)
    (file_types : List String) (dry_run : Bool) : IndexResult × OutFile :=
  let found := foundFiles env directory file_types
  if found = [] then
    let exts := String.intercalate ", " file_types
    ({ status := "error"
       message := s!"No files with specified extensions ({exts}) found in {directory}"
       stats := none }, .untouched)
  else
    let r := runBatches env found
    let stats : Stats := { r.1 with processing_time := 0, chunks_indexed := r.2.length }
    let all_processed_chunks := r.2
    let fp := stats.files_processed
    let ci := stats.chunks_indexed
    let pt := stats.processing_time
    if !dry_run && !all_processed_chunks.isEmpty then
      if env.writeOk then
        ({ status := "success"
           message := s!"Processed {fp} files and saved {ci} chunks to {OUTPUT_JSON_FILE} in {pt} seconds"
           stats := some stats }, .written all_processed_chunks)
      else
        ({ status := "error"
           message := s!"Failed to write embeddings to {OUTPUT_JSON_FILE}"
           stats := some stats }, .writeFailed)
    else if dry_run then
      ({ status := "success"
         message := s!"Dry run complete. Would have saved {ci} chunks to {OUTPUT_JSON_FILE}. Processed {fp} files in {pt} seconds"
         stats := some stats }, .untouched)
    else
      ({ status := "success"
         message := s!"No valid embeddings generated. Processed {fp} files in {pt} seconds"
         stats := some stats }, .untouched)

/-! ## `main` (indexer.py 269-294) -/

structure Args where
  directory : String
  file_types : List String
  dry_run : Bool

/-- `main`: exit code together with the indexer's result (none when the
credential check fails before any work). -/
def mainRun (env : Env) (args : Args) : Nat × Option (IndexResult × OutFile) :=
  if !env.apiKey then (1, none)
  else
    let r := index_markdown_files env args.directory args.file_types args.dry_run
    if r.1.status = "success" then (0, some r) else (1, some r)

/-! ## The JSON artifact

`json.dump` / `json.load` round-trip the values this pipeline produces
(strings, ints, floats, lists, string-keyed dicts) exactly, so the file is
modelled by its decoded value.  `obj` models a decoded dict, so its keys are
unique in every value this development builds or that `json.load` can
produce. -/

inductive Json where
  | null : Json
  | bool : Bool → Json
  | num : Rat → Json
  | str : String → Json
  | arr : List Json → Json
  | obj : List (String × Json) → Json

/-- The key/value pairs of one serialized chunk dict, in insertion order:
the five keys of indexer.py 90-96, then `"embedding"` as added by
`embed_content` (absent if the loop never assigned it). -/
def chunkFields (c : EmbChunk) : List (String × Json) :=
  [("id", .str c.chunk.id), ("file_id", .str c.chunk.file_id),
   ("content", .str c.chunk.content),
   ("start_pos", .num (c.chunk.start_pos : Rat)),
   ("end_pos", .num (c.chunk.end_pos : Rat))] ++
  (match c.embedding with
   | some v => [("embedding", .arr (v.map Json.num))]
   | none => [])

/-- `json.dump` of one chunk dict. -/
def chunkJson (c : EmbChunk) : Json := .obj (chunkFields c)

/-- `json.dump(all_processed_chunks, ...)` (indexer.py 246). -/
def dumpChunks (l : List EmbChunk) : Json := .arr (l.map chunkJson)

/-! ## `load_embeddings` (viz_scatter.py 17-41) -/

/-- A row of the dataframe, as the decoded dict's fields. -/
abbrev Row := List (String × Json)

/-- Dict / dataframe-column access: `some v` when the key exists, `none`
models the `NaN` a dataframe puts in a column the row's dict lacks. -/
def lookupField : Row → String → Option Json
  | [], _ => none
  | (k, v) :: rest, key => if k = key then some v else lookupField rest key

/-- Python's `float(x)` on a JSON-decoded value: numbers and booleans
convert; `None`, lists and dicts raise.  (`float` on a numeric string also
succeeds in Python; strings are not produced by the indexer and no theorem
below exercises that case, so it is modelled as raising.) -/
def jsonFloat : Json → Option Rat
  | .num q => some q
  | .bool b => some (if b then 1 else 0)
  | _ => none

/-- The cell transform `lambda x: tuple(map(float, x)) if isinstance(x, list)
else None` (viz_scatter.py 25).  The outer `none` models `float` raising
inside `map` (which aborts the whole load); `some none` is the `None` cell
that `dropna` removes; `some (some v)` is the coerced tuple. -/
def coerceEmbedding (v : Option Json) : Option (Option (List Rat)) :=
  match v with
  | some (.arr xs) =>
    match xs.mapM jsonFloat with
    | some coerced => some (some coerced)
    | none => none
  | _ => some none

/-- A surviving row of the loaded dataframe. -/
structure LoadedRow where
  fields : Row
  embedding : List Rat

/-- `load_embeddings` (viz_scatter.py 17-41) on the decoded file contents:
build the dataframe (rows must be dicts, else column access raises and the
`except` arm returns `None`), coerce the `embedding` column, drop `None`
cells, and fail when nothing survives.  The missing-columns check at line 30
only warns, so it has no effect on the returned value. -/
def load_embeddings (data : Json) : Option (List LoadedRow) :=
  match data with
  | .arr items =>
    match items.mapM (fun it => match it with | .obj fields => some fields | _ => none) with
    | none => none
    | some rows =>
      match rows.mapM (fun r =>
          (coerceEmbedding (lookupField r "embedding")).map (fun e => (r, e))) with
      | none => none
      | some coerced =>
        let kept := coerced.filterMap (fun p => p.2.map (fun e => LoadedRow.mk p.1 e))
        if kept.isEmpty then none else some kept
  | _ => none

/-! ## `run_tsne` (viz_scatter.py 43-73) -/

/-- The keyword arguments passed to `TSNE(...)` (viz_scatter.py 57-65);
`init='pca'` and `n_jobs=-1` are fixed and omitted.  `learning_rate` comes
from an integer slider. -/
structure TsneArgs where
  n_components : Nat
  perplexity : Nat
  max_iter : Nat
  learning_rate : Nat
  random_state : Nat
deriving DecidableEq, Repr

/-- `run_tsne` (viz_scatter.py 43-73) up to the `TSNE` library call, which is
an external collaborator: returns the arguments handed to `TSNE` together
with whether the perplexity warning fired, or `none` when the dataframe is
absent or empty. -/
def run_tsne (embeddings_df : Option (List LoadedRow)) (perplexity n_iter : Nat)
    (learning_rate : Nat) (random_state : Nat) : Option (TsneArgs × Bool) :=
  match embeddings_df with
  | none => none
  | some rows =>
    if rows.isEmpty then none
    else
      let embeddings_matrix := rows.map (fun r => r.embedding)
      if embeddings_matrix.length ≤ perplexity then
        some ({ n_components := 2, perplexity := max 1 (embeddings_matrix.length - 1)
                max_iter := n_iter, learning_rate := learning_rate
                random_state := random_state }, true)
      else
        some ({ n_components := 2, perplexity := perplexity, max_iter := n_iter
                learning_rate := learning_rate, random_state := random_state }, false)

/-! ## Proof-support definitions -/

/-- The decimal digit list of `n`, most significant first: a fuel-free
characterization of `Nat.toDigits 10`. -/
def digitsRec (n : Nat) : List Char :=
  if n < 10 then [Nat.digitChar n]
  else digitsRec (n / 10) ++ [Nat.digitChar (n % 10)]
termination_by n
decreasing_by exact Nat.div_lt_self (by omega) (by omega)

/-- Reads a decimal digit list back as a number. -/
def decodeDigits (l : List Char) : Nat :=
  l.foldl (fun acc c => 10 * acc + (c.toNat - 48)) 0

/-- The statistics update of one file, separated from the chunk
accumulation. -/
def fileStatsStep (env : Env) (s : Stats) (p : String) : Stats :=
  (processFile env (s, []) p).1

/-- `float()` raises on no element of this row's embedding cell. -/
def rowEmbOk (r : Row) : Bool :=
  match lookupField r "embedding" with
  | some (Json.arr xs) => (xs.mapM jsonFloat).isSome
  | _ => true

/-- The row's embedding value is a list. -/
def rowKept (r : Row) : Bool :=
  match lookupField r "embedding" with
  | some (Json.arr _) => true
  | _ => false

/-- The coerced embedding cell of a row: `some` for a list cell, `none` for
the `None` that `dropna` removes. -/
def coerceCell (r : Row) : Option (List Rat) :=
  match lookupField r "embedding" with
  | some (Json.arr xs) => xs.mapM jsonFloat
  | _ => none

/-- A concrete environment: three discovered files, one readable file with
two chunks, one with a single chunk, one empty file; the API succeeds. -/
def sampleEnv : Env :=
  { glob := fun pat => if pat = "./**/*.md" then ["a.md", "b.md", "e.md"] else []
    fs := fun p =>
      if p = "a.md" then some "hello world"
      else if p = "b.md" then some "bb"
      else if p = "e.md" then some "" else none
    relpath := fun p => p
    splitter := fun t => if 5 < t.length then [t.take 6, t.drop 3] else [t]
    api := fun texts => .ok (texts.map (fun t => [(t.length : Rat)]))
    writeOk := true
    apiKey := true }

/-- An environment in which no file matches any pattern. -/
def emptyGlobEnv : Env :=
  { glob := fun _ => []
    fs := fun _ => none
    relpath := fun p => p
    splitter := fun t => [t]
    api := fun _ => .error ()
    writeOk := true
    apiKey := true }

def wChunkA : Chunk := mkChunk "a.md" 0 "aa"
def wChunkB : Chunk := mkChunk "a.md" 1 "bbb"

/-! ## Lemmas about `chunksOf` -/

theorem chunksOf_count_eq {len n : Nat} (hn : 0 < n) (hlen : 0 < len) :
    (len + n - 1) / n = (len - 1) / n + 1 := by
  have h : len + n - 1 = (len - 1) + n := by omega
  rw [h, Nat.add_div_right _ hn]

theorem chunksOf_nil (n : Nat) : chunksOf n ([] : List α) = [] := by
  have h : (0 + n - 1) / n = 0 := by
    cases n with
    | zero => rfl
    | succ m => exact Nat.div_eq_of_lt (by omega)
  simp only [chunksOf, List.length_nil, h, List.range_zero, List.map_nil]

theorem chunksOf_eq_cons (n : Nat) (hn : 0 < n) (l : List α) (hl : l ≠ []) :
    chunksOf n l = l.take n :: chunksOf n (l.drop n) := by
  have hlen : 0 < l.length := List.length_pos.mpr hl
  unfold chunksOf
  rw [chunksOf_count_eq hn hlen, List.range_succ_eq_map]
  simp only [List.map_cons, List.map_map, Nat.zero_mul, List.drop_zero]
  congr 1
  have hcount : ((l.drop n).length + n - 1) / n = (l.length - 1) / n := by
    rw [List.length_drop]
    rcases Nat.lt_or_ge l.length n with h | h
    · have h0 : l.length - n = 0 := by omega
      have e1 : (l.length - n + n - 1) / n = 0 := by
        rw [h0]
        exact Nat.div_eq_of_lt (by omega)
      have e2 : (l.length - 1) / n = 0 := Nat.div_eq_of_lt (by omega)
      rw [e1, e2]
    · rcases Nat.eq_or_lt_of_le h with h1 | h1
      · have e1 : (l.length - n + n - 1) / n = 0 := by
          rw [← h1, Nat.sub_self]
          exact Nat.div_eq_of_lt (by omega)
        have e2 : (l.length - 1) / n = 0 := by
          rw [← h1]
          exact Nat.div_eq_of_lt (by omega)
        rw [e1, e2]
      · have h2 : 0 < l.length - n := by omega
        rw [chunksOf_count_eq hn h2]
        have h3 : l.length - 1 = (l.length - n - 1) + n := by omega
        rw [h3, Nat.add_div_right _ hn]
  rw [hcount]
  apply List.map_congr_left
  intro k _
  simp only [Function.comp_apply, List.drop_drop]
  congr 2
  rw [Nat.succ_mul]
  omega

theorem chunksOf_flatten (n : Nat) (hn : 0 < n) (l : List α) :
    (chunksOf n l).flatten = l := by
  generalize hlen : l.length = len
  induction len using Nat.strong_induction_on generalizing l with
  | _ len ih =>
    cases l with
    | nil => simp [chunksOf]
    | cons x xs =>
      have hdrop : ((x :: xs).drop n).length < len := by
        rw [← hlen]
        simp only [List.length_drop, List.length_cons]
        omega
      have hrec := ih ((x :: xs).drop n).length hdrop ((x :: xs).drop n) rfl
      rw [chunksOf_eq_cons n hn _ (by simp), List.flatten_cons, hrec,
        List.take_append_drop]

theorem length_le_of_mem_chunksOf {n : Nat} {l b : List α}
    (hb : b ∈ chunksOf n l) : b.length ≤ n := by
  simp only [chunksOf, List.mem_map] at hb
  obtain ⟨k, -, rfl⟩ := hb
  rw [List.length_take]
  exact min_le_left _ _

/-! ## Lemmas about `embed_content` -/

theorem foldl_append_eq_flatMap (f : α → List β) (init : List β) (l : List α) :
    l.foldl (fun acc x => acc ++ f x) init = init ++ l.flatMap f := by
  induction l generalizing init with
  | nil => simp
  | cons x xs ih => simp only [List.foldl_cons, ih, List.flatMap_cons, List.append_assoc]

/-- `embed_content` concatenates, sub-batch by sub-batch and in order, the
result of processing each sub-batch against its own API response. -/
theorem embed_content_eq (api : List String → Except Unit (List Vec))
    (chunks : List Chunk) :
    embed_content api chunks
      = (chunksOf GEMINI_BATCH_LIMIT chunks).flatMap
          (fun b => processBatch (api (b.map (fun c => c.content))) b) := by
  unfold embed_content
  rw [foldl_append_eq_flatMap, List.nil_append]

theorem assignEmb_eq_zipWith :
    ∀ (cs : List Chunk) (vs : List Vec), vs.length = cs.length →
      assignEmb cs vs = List.zipWith (fun c v => ⟨c, some v⟩) cs vs := by
  intro cs
  induction cs with
  | nil =>
    intro vs h
    cases vs with
    | nil => rfl
    | cons v vs => simp at h
  | cons c cs ih =>
    intro vs h
    cases vs with
    | nil => simp at h
    | cons v vs =>
      simp only [assignEmb, List.zipWith_cons_cons, List.cons.injEq, true_and]
      exact ih vs (by simpa using h)

theorem processBatch_error (e : Unit) (batch : List Chunk) :
    processBatch (.error e) batch = batch.map (fun c => ⟨c, some []⟩) := rfl

theorem processBatch_ok_of_length_eq (vecs : List Vec) (batch : List Chunk)
    (h : vecs.length = batch.length) :
    processBatch (.ok vecs) batch
      = List.zipWith (fun c v => ⟨c, some v⟩) batch vecs := by
  simp only [processBatch]
  rw [if_pos (Nat.le_of_eq h)]
  exact assignEmb_eq_zipWith batch vecs h

theorem assignEmb_get? :
    ∀ (cs : List Chunk) (vs : List Vec) (i : Nat),
      (assignEmb cs vs).get? i = (cs.get? i).map (fun c => ⟨c, vs.get? i⟩) := by
  intro cs
  induction cs with
  | nil => intro vs i; cases vs <;> rfl
  | cons c cs ih =>
    intro vs i
    cases vs with
    | nil =>
      cases i with
      | zero => rfl
      | succ j => simpa [assignEmb] using ih [] j
    | cons v vs =>
      cases i with
      | zero => rfl
      | succ j => simpa [assignEmb] using ih vs j

/-! ## Decimal representations

`Nat.repr` (used by the f-string for the chunk id) produces digit characters
only, and is injective; hence ids built from distinct offsets differ. -/

theorem toDigitsCore_eq_digitsRec :
    ∀ (fuel n : Nat) (ds : List Char), n < fuel →
      Nat.toDigitsCore 10 fuel n ds = digitsRec n ++ ds := by
  intro fuel
  induction fuel with
  | zero => omega
  | succ f ih =>
    intro n ds h
    simp only [Nat.toDigitsCore]
    rcases Nat.lt_or_ge n 10 with h10 | h10
    · have hz : n / 10 = 0 := Nat.div_eq_of_lt h10
      rw [if_pos hz, digitsRec, if_pos h10, Nat.mod_eq_of_lt h10]
      rfl
    · have h1 : n / 10 < n := Nat.div_lt_self (by omega) (by omega)
      have hz : ¬ n / 10 = 0 := by omega
      have hlt : n / 10 < f := by omega
      rw [if_neg hz, ih (n / 10) _ hlt]
      rw [show digitsRec n = digitsRec (n / 10) ++ [Nat.digitChar (n % 10)] from by
        rw [digitsRec]
        rw [if_neg (by omega)]]
      rw [List.append_assoc, List.singleton_append]

theorem repr_eq_digitsRec (n : Nat) : Nat.repr n = (digitsRec n).asString := by
  unfold Nat.repr Nat.toDigits
  rw [toDigitsCore_eq_digitsRec (n + 1) n [] (Nat.lt_succ_self n), List.append_nil]

theorem digitChar_isDigit {k : Nat} (h : k < 10) : (Nat.digitChar k).isDigit := by
  interval_cases k <;> decide

theorem digitChar_toNat {k : Nat} (h : k < 10) : (Nat.digitChar k).toNat = 48 + k := by
  interval_cases k <;> decide

theorem digitsRec_isDigit (n : Nat) : ∀ c ∈ digitsRec n, c.isDigit := by
  induction n using Nat.strong_induction_on with
  | _ n ih =>
    rw [digitsRec]
    split
    · intro c hc
      rw [List.mem_singleton] at hc
      subst hc
      exact digitChar_isDigit (by omega)
    · intro c hc
      rw [List.mem_append] at hc
      rcases hc with hc | hc
      · exact ih (n / 10) (Nat.div_lt_self (by omega) (by omega)) c hc
      · rw [List.mem_singleton] at hc
        subst hc
        exact digitChar_isDigit (Nat.mod_lt _ (by omega))

theorem decode_digitsRec (n : Nat) : decodeDigits (digitsRec n) = n := by
  induction n using Nat.strong_induction_on with
  | _ n ih =>
    rw [digitsRec]
    split
    · rename_i h10
      show 10 * 0 + ((Nat.digitChar n).toNat - 48) = n
      rw [digitChar_toNat h10]
      omega
    · rename_i h10
      have hge : 10 ≤ n := by omega
      unfold decodeDigits
      rw [List.foldl_append]
      have hrec : decodeDigits (digitsRec (n / 10)) = n / 10 :=
        ih (n / 10) (Nat.div_lt_self (by omega) (by omega))
      unfold decodeDigits at hrec
      rw [hrec]
      show 10 * (n / 10) + ((Nat.digitChar (n % 10)).toNat - 48) = n
      rw [digitChar_toNat (Nat.mod_lt _ (by omega))]
      omega

theorem repr_data_eq (n : Nat) : (Nat.repr n).data = digitsRec n := by
  rw [repr_eq_digitsRec]
  rfl

theorem decode_repr_data (n : Nat) : decodeDigits (Nat.repr n).data = n := by
  rw [repr_data_eq]
  exact decode_digitsRec n

theorem repr_data_no_dash (n : Nat) : ∀ c ∈ (Nat.repr n).data, c ≠ '-' := by
  rw [repr_data_eq]
  intro c hc
  have := digitsRec_isDigit n c hc
  intro hdash
  subst hdash
  simp at this

theorem append_dash_inj :
    ∀ (a b c d : List Char), (∀ x ∈ a, x ≠ '-') → (∀ x ∈ b, x ≠ '-') →
      a ++ '-' :: c = b ++ '-' :: d → a = b ∧ c = d := by
  intro a
  induction a with
  | nil =>
    intro b c d _ hb h
    cases b with
    | nil => simpa using h
    | cons y ys =>
      rw [List.nil_append, List.cons_append, List.cons.injEq] at h
      exact absurd h.1.symm (hb y (List.mem_cons_self y ys))
  | cons x xs ih =>
    intro b c d ha hb h
    cases b with
    | nil =>
      rw [List.nil_append, List.cons_append, List.cons.injEq] at h
      exact absurd h.1 (ha x (List.mem_cons_self x xs))
    | cons y ys =>
      rw [List.cons_append, List.cons_append, List.cons.injEq] at h
      obtain ⟨h1, h2⟩ := ih ys c d (fun z hz => ha z (List.mem_cons_of_mem x hz))
        (fun z hz => hb z (List.mem_cons_of_mem y hz)) h.2
      exact ⟨by rw [h.1, h1], h2⟩

/-- Two chunk ids with the same `file_id` agree exactly when their offsets
agree. -/
theorem chunkId_inj {f : String} {s1 e1 s2 e2 : Nat}
    (h : chunkId f s1 e1 = chunkId f s2 e2) : s1 = s2 ∧ e1 = e2 := by
  unfold chunkId at h
  have hd := congrArg String.data h
  simp only [String.data_append, List.append_assoc] at hd
  have hd2 := List.append_cancel_left hd
  have hd3 := List.append_cancel_left hd2
  rw [List.singleton_append, List.singleton_append] at hd3
  obtain ⟨hs, he⟩ := append_dash_inj _ _ _ _ (repr_data_no_dash s1)
    (repr_data_no_dash s2) hd3
  constructor
  · rw [← decode_repr_data s1, ← decode_repr_data s2, hs]
  · rw [← decode_repr_data e1, ← decode_repr_data e2, he]

theorem startPos_inj {i j : Nat}
    (h : (if i > 0 then i * (CHUNK_SIZE - CHUNK_OVERLAP) else 0)
       = (if j > 0 then j * (CHUNK_SIZE - CHUNK_OVERLAP) else 0)) : i = j := by
  have hk : CHUNK_SIZE - CHUNK_OVERLAP = 400 := by decide
  rw [hk] at h
  split_ifs at h <;> omega

/-! ## Lemmas about the orchestrator's folds -/

theorem processFile_fst (env : Env) (s : Stats) (cs : List Chunk) (p : String) :
    (processFile env (s, cs) p).1 = fileStatsStep env s p := by
  unfold fileStatsStep processFile
  dsimp only
  split <;> rfl

theorem fileStatsStep_spec (env : Env) (s : Stats) (p : String) :
    fileStatsStep env s p
      = if read_text_file env.fs p = "" then
          { s with files_failed := s.files_failed + 1 }
        else
          { s with
              files_processed := s.files_processed + 1
              chunks_created := s.chunks_created
                + (split_text env.relpath env.splitter
                    (read_text_file env.fs p) p).length } := by
  unfold fileStatsStep processFile
  dsimp only
  split <;> rfl

theorem foldl_processFile_fst (env : Env) :
    ∀ (batch : List String) (s : Stats) (cs : List Chunk),
      (batch.foldl (processFile env) (s, cs)).1
        = batch.foldl (fileStatsStep env) s := by
  intro batch
  induction batch with
  | nil => intro s cs; rfl
  | cons p ps ih =>
    intro s cs
    rw [List.foldl_cons, List.foldl_cons, ← processFile_fst env s cs p]
    exact ih _ _

theorem processOuterBatch_fst (env : Env) (acc : Stats × List EmbChunk)
    (b : List String) :
    (processOuterBatch env acc b).1 = b.foldl (fileStatsStep env) acc.1 := by
  unfold processOuterBatch
  dsimp only
  split <;> exact foldl_processFile_fst env b acc.1 []

theorem foldl_processOuterBatch_fst (env : Env) :
    ∀ (bs : List (List String)) (s : Stats) (l : List EmbChunk),
      (bs.foldl (processOuterBatch env) (s, l)).1
        = bs.flatten.foldl (fileStatsStep env) s := by
  intro bs
  induction bs with
  | nil => intro s l; rfl
  | cons b bs ih =>
    intro s l
    rw [List.foldl_cons, List.flatten_cons, List.foldl_append,
      ← processOuterBatch_fst env (s, l) b]
    exact ih _ _

/-- The run's statistics are the per-file fold over the discovered files:
outer batching and embedding leave them untouched. -/
theorem runBatches_fst (env : Env) (found : List String) :
    (runBatches env found).1 = found.foldl (fileStatsStep env) initStats := by
  unfold runBatches
  rw [foldl_processOuterBatch_fst, chunksOf_flatten BATCH_SIZE (by decide) found]

theorem foldl_stats_files_failed (env : Env) :
    ∀ (found : List String) (s : Stats),
      (found.foldl (fileStatsStep env) s).files_failed
        = s.files_failed + found.countP (fun q => read_text_file env.fs q == "") := by
  intro found
  induction found with
  | nil => intro s; simp
  | cons p ps ih =>
    intro s
    rw [List.foldl_cons, ih, fileStatsStep_spec, List.countP_cons]
    by_cases h : read_text_file env.fs p = ""
    · rw [if_pos h]
      simp only [h]
      simp
      omega
    · rw [if_neg h]
      have hb : (read_text_file env.fs p == "") = false := by
        simpa using h
      simp only [hb]
      simp

theorem foldl_stats_files_processed (env : Env) :
    ∀ (found : List String) (s : Stats),
      (found.foldl (fileStatsStep env) s).files_processed
        = s.files_processed
          + found.countP (fun q => !(read_text_file env.fs q == "")) := by
  intro found
  induction found with
  | nil => intro s; simp
  | cons p ps ih =>
    intro s
    rw [List.foldl_cons, ih, fileStatsStep_spec, List.countP_cons]
    by_cases h : read_text_file env.fs p = ""
    · rw [if_pos h]
      simp only [h]
      simp
    · rw [if_neg h]
      have hb : (read_text_file env.fs p == "") = false := by
        simpa using h
      simp only [hb]
      simp
      omega

theorem foldl_stats_chunks_created (env : Env) :
    ∀ (found : List String) (s : Stats),
      (found.foldl (fileStatsStep env) s).chunks_created
        = s.chunks_created
          + (found.map (fun q =>
              if read_text_file env.fs q = "" then 0
              else (split_text env.relpath env.splitter
                (read_text_file env.fs q) q).length)).sum := by
  intro found
  induction found with
  | nil => intro s; simp
  | cons p ps ih =>
    intro s
    rw [List.foldl_cons, ih, fileStatsStep_spec, List.map_cons, List.sum_cons]
    by_cases h : read_text_file env.fs p = ""
    · rw [if_pos h, if_pos h]
      simp
    · rw [if_neg h, if_neg h]
      dsimp only
      omega

/-- Every chunk the outer loop appends to `all_processed_chunks` passed the
`chunk.get("embedding")` filter. -/
theorem foldl_processOuterBatch_valid (env : Env) :
    ∀ (bs : List (List String)) (s : Stats) (l : List EmbChunk),
      (∀ c ∈ l, hasEmbedding c = true) →
      ∀ c ∈ (bs.foldl (processOuterBatch env) (s, l)).2, hasEmbedding c = true := by
  intro bs
  induction bs with
  | nil => intro s l hl; exact hl
  | cons b bs ih =>
    intro s l hl
    rw [List.foldl_cons]
    have hstep : ∀ c ∈ (processOuterBatch env (s, l) b).2, hasEmbedding c = true := by
      unfold processOuterBatch
      dsimp only
      split
      · exact hl
      · intro c hc
        rw [List.mem_append] at hc
        rcases hc with hc | hc
        · exact hl c hc
        · exact (List.mem_filter.mp hc).2
    exact ih _ _ hstep

theorem runBatches_valid (env : Env) (found : List String) :
    ∀ c ∈ (runBatches env found).2, hasEmbedding c = true :=
  foldl_processOuterBatch_valid env _ _ _ (by intro c hc; simp at hc)

theorem hasEmbedding_iff (c : EmbChunk) :
    hasEmbedding c = true ↔ ∃ v, c.embedding = some v ∧ v ≠ [] := by
  unfold hasEmbedding
  match h : c.embedding with
  | none => simp
  | some [] => simp
  | some (x :: xs) =>
    simp only [true_iff]
    exact ⟨x :: xs, rfl, by simp⟩

/-- The per-file statistics do not depend on the embedding API. -/
theorem fileStatsStep_api (env : Env) (a : List String → Except Unit (List Vec)) :
    fileStatsStep { env with api := a } = fileStatsStep env := rfl

theorem runBatches_fst_api (env : Env) (a : List String → Except Unit (List Vec))
    (found : List String) :
    (runBatches { env with api := a } found).1 = (runBatches env found).1 := by
  rw [runBatches_fst, runBatches_fst, fileStatsStep_api]

/-- Runs over file systems whose reads agree are identical. -/
theorem processFile_fs_congr (env : Env) (fs2 : String → Option String)
    (h : ∀ q, read_text_file fs2 q = read_text_file env.fs q)
    (acc : Stats × List Chunk) (p : String) :
    processFile { env with fs := fs2 } acc p = processFile env acc p := by
  unfold processFile
  dsimp only
  rw [h p]

theorem processOuterBatch_fs_congr (env : Env) (fs2 : String → Option String)
    (h : ∀ q, read_text_file fs2 q = read_text_file env.fs q)
    (acc : Stats × List EmbChunk) (b : List String) :
    processOuterBatch { env with fs := fs2 } acc b = processOuterBatch env acc b := by
  unfold processOuterBatch
  dsimp only
  have hfold : ∀ (bb : List String) (a : Stats × List Chunk),
      bb.foldl (processFile { env with fs := fs2 }) a = bb.foldl (processFile env) a := by
    intro bb
    induction bb with
    | nil => intro a; rfl
    | cons q qs ih =>
      intro a
      rw [List.foldl_cons, List.foldl_cons, processFile_fs_congr env fs2 h]
      exact ih _
  rw [hfold]

theorem runBatches_fs_congr (env : Env) (fs2 : String → Option String)
    (h : ∀ q, read_text_file fs2 q = read_text_file env.fs q)
    (found : List String) :
    runBatches { env with fs := fs2 } found = runBatches env found := by
  unfold runBatches
  have hfold : ∀ (bs : List (List String)) (a : Stats × List EmbChunk),
      bs.foldl (processOuterBatch { env with fs := fs2 }) a
        = bs.foldl (processOuterBatch env) a := by
    intro bs
    induction bs with
    | nil => intro a; rfl
    | cons b bs ih =>
      intro a
      rw [List.foldl_cons, List.foldl_cons, processOuterBatch_fs_congr env fs2 h]
      exact ih _
  exact hfold _ _

theorem runBatches_nil (env : Env) : runBatches env [] = (initStats, []) := rfl

/-! ## Claim theorems -/

/-- C2: `embed_content` splits its input into consecutive sub-batches of at
most `GEMINI_BATCH_LIMIT = 100` chunks, in order (their concatenation is the
input and each has at most 100 elements); the output is the concatenation of
each sub-batch processed against only its own API response, so sub-batches do
not affect one another; a raising sub-batch yields all of its chunks with an
empty embedding, and the error is not propagated; a successful response is
assigned positionally, the `i`-th vector to the `i`-th chunk of the
sub-batch. -/
theorem C2_embedder_subbatching (api : List String → Except Unit (List Vec))
    (chunks : List Chunk) :
    ((chunksOf GEMINI_BATCH_LIMIT chunks).flatten = chunks
        ∧ ∀ b ∈ chunksOf GEMINI_BATCH_LIMIT chunks, b.length ≤ GEMINI_BATCH_LIMIT)
      ∧ embed_content api chunks
          = (chunksOf GEMINI_BATCH_LIMIT chunks).flatMap
              (fun b => processBatch (api (b.map (fun c => c.content))) b)
      ∧ (∀ (b : List Chunk) (e : Unit), api (b.map (fun c => c.content)) = .error e →
          processBatch (api (b.map (fun c => c.content))) b
            = b.map (fun c => ⟨c, some []⟩))
      ∧ (∀ (b : List Chunk) (vecs : List Vec),
          api (b.map (fun c => c.content)) = .ok vecs → vecs.length ≤ b.length →
          ∀ i : Nat,
            (processBatch (api (b.map (fun c => c.content))) b).get? i
              = (b.get? i).map (fun c => ⟨c, vecs.get? i⟩))
      ∧ (∀ (b : List Chunk) (vecs : List Vec),
          api (b.map (fun c => c.content)) = .ok vecs → vecs.length = b.length →
          processBatch (api (b.map (fun c => c.content))) b
            = List.zipWith (fun c v => ⟨c, some v⟩) b vecs) := by
  refine ⟨⟨chunksOf_flatten _ (by decide) chunks,
      fun b hb => length_le_of_mem_chunksOf hb⟩,
    embed_content_eq api chunks, ?_, ?_, ?_⟩
  · intro b e he
    rw [he]
    rfl
  · intro b vecs hok hle i
    rw [hok]
    simp only [processBatch, if_pos hle]
    exact assignEmb_get? b vecs i
  · intro b vecs hok hlen
    rw [hok]
    exact processBatch_ok_of_length_eq vecs b hlen

theorem split_text_length (r : String → String) (sp : String → List String)
    (t p : String) : (split_text r sp t p).length = (sp t).length := by
  unfold split_text
  rw [List.length_map, List.enum_length]

theorem split_text_get (r : String → String) (sp : String → List String)
    (t p : String) (i : Nat) (hi : i < (split_text r sp t p).length)
    (hsp : i < (sp t).length) :
    (split_text r sp t p).get ⟨i, hi⟩
      = mkChunk (posixFileId r p) i ((sp t).get ⟨i, hsp⟩) := by
  unfold split_text
  simp [List.getElem_enum]

theorem split_text_id_nodup (r : String → String) (sp : String → List String)
    (t p : String) :
    ((split_text r sp t p).map (fun c => c.id)).Nodup := by
  unfold split_text
  rw [List.map_map]
  refine List.Nodup.map_on ?_ ?_
  · rintro ⟨i, a⟩ hia ⟨j, b⟩ hjb h
    simp only [Function.comp_apply] at h
    have h' : chunkId (posixFileId r p)
        (if i > 0 then i * (CHUNK_SIZE - CHUNK_OVERLAP) else 0)
        ((if i > 0 then i * (CHUNK_SIZE - CHUNK_OVERLAP) else 0) + a.length)
      = chunkId (posixFileId r p)
        (if j > 0 then j * (CHUNK_SIZE - CHUNK_OVERLAP) else 0)
        ((if j > 0 then j * (CHUNK_SIZE - CHUNK_OVERLAP) else 0) + b.length) := h
    have hij : i = j := startPos_inj (chunkId_inj h').1
    subst hij
    rw [List.mem_enum_iff_getElem?] at hia hjb
    have : some a = some b := by rw [← hia, ← hjb]
    rw [Option.some.injEq] at this
    rw [this]
  · exact ((List.enum_map_fst (sp t) ▸ List.nodup_range (sp t).length)).of_map _

/-- C3: every chunk built by `split_text` carries `file_id` equal to the
POSIX-style relative path; chunk `i` has
`start_pos = i * (CHUNK_SIZE - CHUNK_OVERLAP)` for `i > 0` and `0` for
`i = 0`, `end_pos = start_pos + len(content)`, and
`id = "{file_id}_{start_pos}-{end_pos}"`; consequently the ids of one file's
chunk set are pairwise distinct. -/
theorem C3_chunker_positions (relpath : String → String)
    (splitter : String → List String) (text file_path : String) :
    (split_text relpath splitter text file_path).length = (splitter text).length
      ∧ (∀ (i : Nat) (hi : i < (split_text relpath splitter text file_path).length),
          ((split_text relpath splitter text file_path).get ⟨i, hi⟩).file_id
              = posixFileId relpath file_path
            ∧ ((split_text relpath splitter text file_path).get ⟨i, hi⟩).start_pos
              = (if i > 0 then i * (CHUNK_SIZE - CHUNK_OVERLAP) else 0)
            ∧ ((split_text relpath splitter text file_path).get ⟨i, hi⟩).end_pos
              = ((split_text relpath splitter text file_path).get ⟨i, hi⟩).start_pos
                + ((split_text relpath splitter text file_path).get ⟨i, hi⟩).content.length
            ∧ ((split_text relpath splitter text file_path).get ⟨i, hi⟩).id
              = chunkId (posixFileId relpath file_path)
                  ((split_text relpath splitter text file_path).get ⟨i, hi⟩).start_pos
                  ((split_text relpath splitter text file_path).get ⟨i, hi⟩).end_pos)
      ∧ ((split_text relpath splitter text file_path).map (fun c => c.id)).Nodup := by
  refine ⟨split_text_length relpath splitter text file_path, ?_,
    split_text_id_nodup relpath splitter text file_path⟩
  intro i hi
  have hsp : i < (splitter text).length := by
    rw [← split_text_length relpath splitter text file_path]
    exact hi
  rw [split_text_get relpath splitter text file_path i hi hsp]
  exact ⟨rfl, rfl, rfl, rfl⟩

theorem C3_chunker_positions_witness :
    (split_text id (fun t => [t.take 4, t.drop 2, t.drop 4]) "abcdef" "a.md").map
        (fun c => c.id)
      = ["a.md_0-4", "a.md_400-404", "a.md_800-802"]
      ∧ ((split_text id (fun t => [t.take 4, t.drop 2, t.drop 4]) "abcdef" "a.md").map
          (fun c => c.id)).Nodup :=
  ⟨by decide,
    (C3_chunker_positions id (fun t => [t.take 4, t.drop 2, t.drop 4])
      "abcdef" "a.md").2.2⟩

/-- C1: every chunk appended to the run's persisted result list
(`all_processed_chunks`, the list the output file is written from) has a
non-empty embedding; the reported `chunks_indexed` equals exactly the number
of these surviving chunks; and `files_processed` does not depend on the
embedding API at all, so no embedding failure changes it. -/
theorem C1_persisted_chunks (env : Env) (directory : String)
    (file_types : List String) (dry_run : Bool)
    (a : List String → Except Unit (List Vec)) :
    (∀ c ∈ (runBatches env (foundFiles env directory file_types)).2,
        ∃ v, c.embedding = some v ∧ v ≠ [])
      ∧ (foundFiles env directory file_types ≠ [] →
          (index_markdown_files env directory file_types dry_run).1.stats
            = some { (runBatches env (foundFiles env directory file_types)).1 with
                     processing_time := 0
                     chunks_indexed :=
                       (runBatches env (foundFiles env directory file_types)).2.length })
      ∧ ((index_markdown_files env directory file_types dry_run).2 = OutFile.untouched
          ∨ (index_markdown_files env directory file_types dry_run).2
              = OutFile.writeFailed
          ∨ (index_markdown_files env directory file_types dry_run).2
              = OutFile.written (runBatches env (foundFiles env directory file_types)).2)
      ∧ (runBatches { env with api := a }
            (foundFiles env directory file_types)).1.files_processed
          = (runBatches env (foundFiles env directory file_types)).1.files_processed := by
  refine ⟨?_, ?_, ?_, ?_⟩
  · intro c hc
    exact (hasEmbedding_iff c).mp (runBatches_valid env _ c hc)
  · intro h
    unfold index_markdown_files
    rw [if_neg h]
    dsimp only
    split_ifs <;> rfl
  · unfold index_markdown_files
    by_cases h : foundFiles env directory file_types = []
    · rw [if_pos h]
      left
      rfl
    · rw [if_neg h]
      dsimp only
      split_ifs
      · right; right; rfl
      · right; left; rfl
      · left; rfl
      · left; rfl
  · exact congrArg Stats.files_processed (runBatches_fst_api env a _)

theorem C1_persisted_chunks_witness :
    (index_markdown_files sampleEnv "." [".md"] false).1.stats
        = some { files_processed := 2, files_failed := 1, chunks_created := 3
                 chunks_indexed := 3, processing_time := 0 }
      ∧ (runBatches sampleEnv (foundFiles sampleEnv "." [".md"])).2.length = 3 := by
  have h := (C1_persisted_chunks sampleEnv "." [".md"] false
    (fun _ => .error ())).2.1 (by decide)
  rw [h]
  exact ⟨by decide, by decide⟩

/-- C4 as stated is false: a dry run that discovers zero files reports an
error result without statistics, not a success result. -/
theorem C4_dry_run_counterexample :
    (index_markdown_files emptyGlobEnv "." [".md"] true).1.status = "error"
      ∧ (index_markdown_files emptyGlobEnv "." [".md"] true).1.status ≠ "success"
      ∧ (index_markdown_files emptyGlobEnv "." [".md"] true).1.stats = none := by
  refine ⟨by decide, by decide, by decide⟩

/-- C4, amended: a dry run never creates or modifies the output file; and
provided at least one file matches the requested extensions, the run reports
a success result carrying the gathered statistics. -/
theorem C4_dry_run_amended (env : Env) (directory : String)
    (file_types : List String) :
    (index_markdown_files env directory file_types true).2 = OutFile.untouched
      ∧ (foundFiles env directory file_types ≠ [] →
          (index_markdown_files env directory file_types true).1.status = "success"
            ∧ (index_markdown_files env directory file_types true).1.stats
                = some { (runBatches env (foundFiles env directory file_types)).1 with
                         processing_time := 0
                         chunks_indexed :=
                           (runBatches env
                             (foundFiles env directory file_types)).2.length }) := by
  constructor
  · unfold index_markdown_files
    by_cases h : foundFiles env directory file_types = []
    · rw [if_pos h]
    · rw [if_neg h]
      rfl
  · intro h
    unfold index_markdown_files
    rw [if_neg h]
    exact ⟨rfl, rfl⟩

theorem C4_dry_run_amended_witness :
    (index_markdown_files sampleEnv "." [".md"] true).2 = OutFile.untouched
      ∧ (index_markdown_files sampleEnv "." [".md"] true).1.status = "success"
      ∧ (index_markdown_files sampleEnv "." [".md"] true).1.stats
          = some { files_processed := 2, files_failed := 1, chunks_created := 3
                   chunks_indexed := 3, processing_time := 0 } := by
  have h := C4_dry_run_amended sampleEnv "." [".md"]
  have h2 := h.2 (by decide)
  exact ⟨h.1, h2.1, h2.2.trans (by decide)⟩

/-- C7: when zero files match the requested extensions, the indexer returns
an error-status result with no statistics, touches no file, and the CLI
exits with code 1. -/
theorem C7_no_files (env : Env) (args : Args) (hkey : env.apiKey = true)
    (hfound : foundFiles env args.directory args.file_types = []) :
    (mainRun env args).1 = 1
      ∧ (mainRun env args).2
          = some (index_markdown_files env args.directory args.file_types args.dry_run)
      ∧ (index_markdown_files env args.directory args.file_types args.dry_run).1.status
          = "error"
      ∧ (index_markdown_files env args.directory args.file_types args.dry_run).1.stats
          = none
      ∧ (index_markdown_files env args.directory args.file_types args.dry_run).2
          = OutFile.untouched := by
  have hidx : (index_markdown_files env args.directory args.file_types args.dry_run).1.status
        = "error"
      ∧ (index_markdown_files env args.directory args.file_types args.dry_run).1.stats
        = none
      ∧ (index_markdown_files env args.directory args.file_types args.dry_run).2
        = OutFile.untouched := by
    unfold index_markdown_files
    rw [if_pos hfound]
    exact ⟨rfl, rfl, rfl⟩
  have hmain : (mainRun env args).1 = 1
      ∧ (mainRun env args).2
        = some (index_markdown_files env args.directory args.file_types args.dry_run) := by
    unfold mainRun
    rw [hkey]
    simp only [Bool.not_true, Bool.false_eq_true, if_false]
    rw [if_neg (by rw [hidx.1]; decide)]
    exact ⟨rfl, rfl⟩
  exact ⟨hmain.1, hmain.2, hidx⟩

theorem C7_no_files_witness :
    (mainRun emptyGlobEnv ⟨".", [".md"], false⟩).1 = 1
      ∧ (index_markdown_files emptyGlobEnv "." [".md"] false).1.stats = none :=
  ⟨(C7_no_files emptyGlobEnv ⟨".", [".md"], false⟩ (by decide) (by decide)).1,
    (C7_no_files emptyGlobEnv ⟨".", [".md"], false⟩ (by decide) (by decide)).2.2.2.1⟩

/-- C8: in a non-dry run with at least one valid chunk, a failing write of
the output file yields an error-status result that still carries the
gathered statistics. -/
theorem C8_write_failure (env : Env) (directory : String) (file_types : List String)
    (hw : env.writeOk = false)
    (hchunks : (runBatches env (foundFiles env directory file_types)).2 ≠ []) :
    (index_markdown_files env directory file_types false).1.status = "error"
      ∧ (index_markdown_files env directory file_types false).1.stats
          = some { (runBatches env (foundFiles env directory file_types)).1 with
                   processing_time := 0
                   chunks_indexed :=
                     (runBatches env (foundFiles env directory file_types)).2.length }
      ∧ (index_markdown_files env directory file_types false).2 = OutFile.writeFailed := by
  have hfound : foundFiles env directory file_types ≠ [] := by
    intro h
    apply hchunks
    rw [h, runBatches_nil]
  have hemp : (runBatches env (foundFiles env directory file_types)).2.isEmpty = false :=
    Bool.eq_false_iff.mpr (fun he => hchunks (List.isEmpty_iff.mp he))
  unfold index_markdown_files
  rw [if_neg hfound]
  dsimp only
  rw [if_pos ?cond]
  case cond =>
    rw [hemp]
    rfl
  rw [if_neg (by rw [hw]; decide)]
  exact ⟨rfl, rfl, rfl⟩

theorem C8_write_failure_witness :
    (index_markdown_files { sampleEnv with writeOk := false } "." [".md"] false).1.status
        = "error"
      ∧ (index_markdown_files { sampleEnv with writeOk := false } "." [".md"] false).1.stats
          = some { files_processed := 2, files_failed := 1, chunks_created := 3
                   chunks_indexed := 3, processing_time := 0 } := by
  have h := C8_write_failure { sampleEnv with writeOk := false } "." [".md"]
    (by decide) (by decide)
  exact ⟨h.1, h.2.1.trans (by decide)⟩

/-- C9: a file whose read comes back as the empty string — because reading
raised or because the file is empty — is counted in `files_failed`, not in
`files_processed`, and contributes no chunks; runs over file systems whose
reads agree are identical, so an unreadable file and an empty file cannot be
told apart in the run statistics. -/
theorem C9_empty_read (env : Env) (directory : String) (file_types : List String)
    (fs2 : String → Option String)
    (hfs : ∀ q, read_text_file fs2 q = read_text_file env.fs q) :
    (∀ q, read_text_file env.fs q = "" ↔ (env.fs q = none ∨ env.fs q = some ""))
      ∧ (runBatches env (foundFiles env directory file_types)).1.files_failed
          = (foundFiles env directory file_types).countP
              (fun q => read_text_file env.fs q == "")
      ∧ (runBatches env (foundFiles env directory file_types)).1.files_processed
          = (foundFiles env directory file_types).countP
              (fun q => !(read_text_file env.fs q == ""))
      ∧ (runBatches env (foundFiles env directory file_types)).1.chunks_created
          = ((foundFiles env directory file_types).map (fun q =>
              if read_text_file env.fs q = "" then 0
              else (split_text env.relpath env.splitter
                (read_text_file env.fs q) q).length)).sum
      ∧ runBatches { env with fs := fs2 } (foundFiles env directory file_types)
          = runBatches env (foundFiles env directory file_types) := by
  refine ⟨?_, ?_, ?_, ?_, runBatches_fs_congr env fs2 hfs _⟩
  · intro q
    unfold read_text_file
    match h : env.fs q with
    | none => simp
    | some c => simp
  · rw [runBatches_fst, foldl_stats_files_failed]
    simp [initStats]
  · rw [runBatches_fst, foldl_stats_files_processed]
    simp [initStats]
  · rw [runBatches_fst, foldl_stats_chunks_created]
    simp [initStats]

theorem C9_empty_read_witness :
    runBatches { sampleEnv with
        fs := fun p => if p = "e.md" then none else sampleEnv.fs p }
        (foundFiles sampleEnv "." [".md"])
      = runBatches sampleEnv (foundFiles sampleEnv "." [".md"])
      ∧ (runBatches sampleEnv (foundFiles sampleEnv "." [".md"])).1.files_failed = 1 := by
  have h := C9_empty_read sampleEnv "." [".md"]
    (fun p => if p = "e.md" then none else sampleEnv.fs p) ?hfs
  case hfs =>
    intro q
    by_cases hq : q = "e.md"
    · subst hq
      decide
    · unfold read_text_file
      dsimp only
      rw [if_neg hq]
  refine ⟨h.2.2.2.2, ?_⟩
  rw [h.2.1]
  decide

theorem C2_embedder_subbatching_witness :
    embed_content (fun _ => .error ()) [wChunkA, wChunkB]
        = [⟨wChunkA, some []⟩, ⟨wChunkB, some []⟩]
      ∧ embed_content (fun texts => .ok (texts.map (fun t => [(t.length : Rat)])))
          [wChunkA, wChunkB]
        = [⟨wChunkA, some [2]⟩, ⟨wChunkB, some [3]⟩] :=
  ⟨((C2_embedder_subbatching (fun _ => .error ()) [wChunkA, wChunkB]).2.1).trans
      (by decide),
    ((C2_embedder_subbatching (fun texts => .ok (texts.map (fun t => [(t.length : Rat)])))
        [wChunkA, wChunkB]).2.1).trans (by decide)⟩

/-! ## Lemmas about the loader -/

theorem mapM_jsonFloat_num (v : List Rat) : (v.map Json.num).mapM jsonFloat = some v := by
  induction v with
  | nil => rfl
  | cons q qs ih =>
    rw [List.map_cons, List.mapM_cons, ih]
    rfl

theorem dump_rows (l : List EmbChunk) :
    (l.map chunkJson).mapM (fun it =>
        match it with | Json.obj fields => some fields | _ => none)
      = some (l.map chunkFields) := by
  induction l with
  | nil => rfl
  | cons c cs ih =>
    rw [List.map_cons, List.map_cons, List.mapM_cons]
    show (some (chunkFields c) >>= fun y =>
        ((cs.map chunkJson).mapM _) >>= fun ys => pure (y :: ys)) = _
    rw [ih]
    rfl

theorem chunkFields_lookup_embedding (c : EmbChunk) (v : Vec)
    (h : c.embedding = some v) :
    lookupField (chunkFields c) "embedding" = some (.arr (v.map Json.num)) := by
  unfold chunkFields
  rw [h]
  rfl

theorem coerce_chunk (c : EmbChunk) (v : Vec) (h : c.embedding = some v) :
    coerceEmbedding (lookupField (chunkFields c) "embedding") = some (some v) := by
  rw [chunkFields_lookup_embedding c v h]
  unfold coerceEmbedding
  dsimp only
  rw [mapM_jsonFloat_num]

theorem coerced_rows (l : List EmbChunk) (hemb : ∀ c ∈ l, hasEmbedding c = true) :
    (l.map chunkFields).mapM (fun r =>
        (coerceEmbedding (lookupField r "embedding")).map (fun e => (r, e)))
      = some (l.map (fun c => (chunkFields c, some (c.embedding.getD [])))) := by
  induction l with
  | nil => rfl
  | cons c cs ih =>
    obtain ⟨v, hv, -⟩ := (hasEmbedding_iff c).mp (hemb c (List.mem_cons_self c cs))
    rw [List.map_cons, List.mapM_cons, coerce_chunk c v hv,
      ih (fun x hx => hemb x (List.mem_cons_of_mem c hx)), List.map_cons, hv]
    rfl

theorem kept_rows (l : List EmbChunk) :
    (l.map (fun c => (chunkFields c, some (c.embedding.getD ([] : List Rat))))).filterMap
        (fun p => p.2.map (fun e => LoadedRow.mk p.1 e))
      = l.map (fun c => LoadedRow.mk (chunkFields c) (c.embedding.getD [])) := by
  induction l with
  | nil => rfl
  | cons c cs ih =>
    simp only [List.map_cons, List.filterMap_cons, Option.map_some']
    rw [ih]

/-- C5: serializing a non-empty list of persisted chunks (all with non-empty
embeddings) and reloading it with the Viewer's loader succeeds and yields one
row per chunk, in order, whose `content`, `file_id` and `id` fields hold the
original values and whose embedding tuple equals the original vector. -/
theorem C5_round_trip (l : List EmbChunk) (hne : l ≠ [])
    (hemb : ∀ c ∈ l, hasEmbedding c = true) :
    load_embeddings (dumpChunks l)
        = some (l.map (fun c => LoadedRow.mk (chunkFields c) (c.embedding.getD [])))
      ∧ (l.map (fun c => LoadedRow.mk (chunkFields c) (c.embedding.getD []))).length
          = l.length
      ∧ ∀ c ∈ l,
          lookupField (chunkFields c) "id" = some (.str c.chunk.id)
            ∧ lookupField (chunkFields c) "file_id" = some (.str c.chunk.file_id)
            ∧ lookupField (chunkFields c) "content" = some (.str c.chunk.content) := by
  refine ⟨?_, List.length_map _ _, fun c hc => ⟨rfl, rfl, rfl⟩⟩
  unfold load_embeddings dumpChunks
  dsimp only
  rw [dump_rows l]
  dsimp only
  rw [coerced_rows l hemb]
  dsimp only
  rw [kept_rows l]
  rw [if_neg ?emp]
  case emp =>
    intro he
    rw [List.isEmpty_iff, List.map_eq_nil_iff] at he
    exact hne he

theorem C5_round_trip_witness :
    load_embeddings (dumpChunks [⟨mkChunk "a.md" 0 "hi", some [1, 2]⟩])
      = some [⟨chunkFields ⟨mkChunk "a.md" 0 "hi", some [1, 2]⟩, [1, 2]⟩] :=
  ((C5_round_trip [⟨mkChunk "a.md" 0 "hi", some [1, 2]⟩]
    (by decide) (by decide)).1).trans rfl

/-! ## Lemmas for the loader's drop criterion -/

theorem coerceEmbedding_eq_cell (r : Row) (h : rowEmbOk r = true) :
    coerceEmbedding (lookupField r "embedding") = some (coerceCell r) := by
  unfold rowEmbOk at h
  unfold coerceEmbedding coerceCell
  cases hl : lookupField r "embedding" with
  | none => rfl
  | some j =>
    cases j with
    | null => rfl
    | bool b => rfl
    | num q => rfl
    | str s => rfl
    | obj fields => rfl
    | arr xs =>
      rw [hl] at h
      dsimp only at h ⊢
      cases hm : xs.mapM jsonFloat with
      | some e => rfl
      | none =>
        rw [hm] at h
        simp at h

theorem map_obj_rows (items : List Row) :
    (items.map Json.obj).mapM (fun it =>
        match it with | Json.obj fields => some fields | _ => none) = some items := by
  induction items with
  | nil => rfl
  | cons r rs ih =>
    rw [List.map_cons, List.mapM_cons]
    show (some r >>= fun y => ((rs.map Json.obj).mapM _) >>= fun ys => pure (y :: ys)) = _
    rw [ih]
    rfl

theorem coerced_rows_all (items : List Row) (hok : ∀ r ∈ items, rowEmbOk r = true) :
    items.mapM (fun r =>
        (coerceEmbedding (lookupField r "embedding")).map (fun e => (r, e)))
      = some (items.map (fun r => (r, coerceCell r))) := by
  induction items with
  | nil => rfl
  | cons r rs ih =>
    rw [List.mapM_cons, coerceEmbedding_eq_cell r (hok r (List.mem_cons_self r rs)),
      ih (fun x hx => hok x (List.mem_cons_of_mem r hx)), List.map_cons]
    rfl

theorem kept_rows_all (items : List Row) :
    (items.map (fun r => (r, coerceCell r))).filterMap
        (fun p => p.2.map (fun e => LoadedRow.mk p.1 e))
      = items.filterMap (fun r => (coerceCell r).map (fun e => LoadedRow.mk r e)) := by
  induction items with
  | nil => rfl
  | cons r rs ih =>
    cases hc : coerceCell r with
    | none =>
      simp only [List.map_cons, List.filterMap_cons, hc, Option.map_none']
      exact ih
    | some e =>
      simp only [List.map_cons, List.filterMap_cons, hc, Option.map_some']
      rw [ih]

theorem kept_ne_nil (items : List Row) (hok : ∀ r ∈ items, rowEmbOk r = true)
    (hkept : items.any rowKept = true) :
    (items.filterMap (fun r =>
        (coerceCell r).map (fun e => LoadedRow.mk r e))).isEmpty = false := by
  obtain ⟨r, hr, hk⟩ := List.any_eq_true.mp hkept
  unfold rowKept at hk
  have hok' := hok r hr
  unfold rowEmbOk at hok'
  refine Bool.eq_false_iff.mpr (fun he => ?_)
  have hnil := List.isEmpty_iff.mp he
  cases hl : lookupField r "embedding" with
  | none => rw [hl] at hk; simp at hk
  | some j =>
    cases j with
    | null => rw [hl] at hk; simp at hk
    | bool b => rw [hl] at hk; simp at hk
    | num q => rw [hl] at hk; simp at hk
    | str s => rw [hl] at hk; simp at hk
    | obj fields => rw [hl] at hk; simp at hk
    | arr xs =>
      rw [hl] at hok'
      dsimp only at hok'
      cases hm : xs.mapM jsonFloat with
      | none => rw [hm] at hok'; simp at hok'
      | some e =>
        have hcell : coerceCell r = some e := by
          unfold coerceCell
          rw [hl]
          dsimp only
          exact hm
        have hmem : LoadedRow.mk r e
            ∈ items.filterMap (fun r => (coerceCell r).map (fun e => LoadedRow.mk r e)) :=
          List.mem_filterMap.mpr ⟨r, hr, by rw [hcell]; rfl⟩
        rw [hnil] at hmem
        simp at hmem

/-- C10: given a well-formed JSON array of objects on which `float()` never
raises, the loader keeps exactly the rows whose `embedding` value is a list
(a row is dropped iff its `embedding` is not a list — missing, null, or any
non-list value), and a row whose embedding is the empty list is retained,
coerced to the empty tuple. -/
theorem C10_loader_drop (items : List Row)
    (hok : items.all rowEmbOk = true) (hkept : items.any rowKept = true) :
    load_embeddings (.arr (items.map Json.obj))
        = some (items.filterMap (fun r =>
            (coerceCell r).map (fun e => LoadedRow.mk r e)))
      ∧ (∀ r ∈ items,
          ((coerceCell r).map (fun e => LoadedRow.mk r e)).isSome = rowKept r)
      ∧ (∀ r ∈ items, lookupField r "embedding" = some (Json.arr []) →
          LoadedRow.mk r []
            ∈ items.filterMap (fun r =>
                (coerceCell r).map (fun e => LoadedRow.mk r e))) := by
  have hok' := List.all_eq_true.mp hok
  refine ⟨?_, ?_, ?_⟩
  · unfold load_embeddings
    dsimp only
    rw [map_obj_rows items]
    dsimp only
    rw [coerced_rows_all items hok']
    dsimp only
    rw [kept_rows_all items, if_neg ?emp]
    case emp =>
      rw [kept_ne_nil items hok' hkept]
      exact Bool.false_ne_true
  · intro r hr
    have h := hok' r hr
    unfold rowEmbOk at h
    unfold coerceCell rowKept
    cases hl : lookupField r "embedding" with
    | none => rfl
    | some j =>
      cases j with
      | null => rfl
      | bool b => rfl
      | num q => rfl
      | str s => rfl
      | obj fields => rfl
      | arr xs =>
        rw [hl] at h
        dsimp only at h ⊢
        cases hm : xs.mapM jsonFloat with
        | none => rw [hm] at h; simp at h
        | some e => rfl
  · intro r hr hl
    have hcell : coerceCell r = some [] := by
      unfold coerceCell
      rw [hl]
      rfl
    exact List.mem_filterMap.mpr ⟨r, hr, by rw [hcell]; rfl⟩

theorem C10_loader_drop_witness :
    load_embeddings (.arr [Json.obj [("embedding", Json.arr [])],
        Json.obj [("embedding", Json.null)], Json.obj [("x", Json.num 1)]])
      = some [⟨[("embedding", Json.arr [])], []⟩] :=
  ((C10_loader_drop [[("embedding", Json.arr [])], [("embedding", Json.null)],
      [("x", Json.num 1)]] (by decide) (by decide)).1).trans rfl

/-- C6: on a non-empty table of `n` rows, a requested perplexity `≥ n` is
replaced by `max 1 (n - 1)` and the user is warned; a requested
perplexity `< n` is passed to the reduction unchanged with no warning. -/
theorem C6_perplexity_clamp (rows : List LoadedRow)
    (perplexity n_iter lr rs : Nat) (hne : rows ≠ []) :
    (rows.length ≤ perplexity →
        run_tsne (some rows) perplexity n_iter lr rs
          = some ({ n_components := 2, perplexity := max 1 (rows.length - 1)
                    max_iter := n_iter, learning_rate := lr
                    random_state := rs }, true))
      ∧ (perplexity < rows.length →
          run_tsne (some rows) perplexity n_iter lr rs
            = some ({ n_components := 2, perplexity := perplexity, max_iter := n_iter
                      learning_rate := lr, random_state := rs }, false)) := by
  have hemp : rows.isEmpty = false :=
    Bool.eq_false_iff.mpr (fun he => hne (List.isEmpty_iff.mp he))
  constructor
  · intro h
    unfold run_tsne
    dsimp only
    rw [hemp]
    simp only [Bool.false_eq_true, if_false]
    rw [if_pos (by rw [List.length_map]; exact h), List.length_map]
  · intro h
    unfold run_tsne
    dsimp only
    rw [hemp]
    simp only [Bool.false_eq_true, if_false]
    rw [if_neg (by rw [List.length_map]; omega)]

theorem C6_perplexity_clamp_witness :
    run_tsne (some [⟨[], [1]⟩, ⟨[], [2]⟩]) 30 300 200 42
        = some ({ n_components := 2, perplexity := 1, max_iter := 300
                  learning_rate := 200, random_state := 42 }, true)
      ∧ run_tsne (some [⟨[], [1]⟩, ⟨[], [2]⟩]) 1 300 200 42
          = some ({ n_components := 2, perplexity := 1, max_iter := 300
                    learning_rate := 200, random_state := 42 }, false) :=
  ⟨by
    have h := (C6_perplexity_clamp [⟨[], [1]⟩, ⟨[], [2]⟩] 30 300 200 42
      (by simp)).1 (by simp)
    exact h.trans rfl,
  by
    have h := (C6_perplexity_clamp [⟨[], [1]⟩, ⟨[], [2]⟩] 1 300 200 42
      (by simp)).2 (by simp)
    exact h.trans rfl⟩

end TsneViz
